import Mathlib

/-!
Shallow embedding of `src/nova_lite_processor.py` (a bounded-duration
concurrent batch runner that submits images to a hosted inference endpoint)
and proofs about its specification claims.

Modelling conventions:
* machine time (`time.time()`) is an abstract integer tick counter;
  `int(time.time())` timestamps are naturals;
* fallible collaborators (`open` on the image file, `invoke_model` together
  with reading and JSON-decoding its body) are `Except String`-valued fields
  of an `Env` record; the exception text plays the role of `str(e)`;
* the `ThreadPoolExecutor` of `process_all_images` is modelled twice: by its
  deterministic per-item denotation (a `List.map`, used inside the outer
  loop) and by a small-step dispatch/complete relation quantified over all
  interleavings (used for the concurrency claims);
* the unbounded `while time.time() < end_time` loop is run on fuel
  `(deadline - now).toNat + 1`, which is exactly enough whenever each batch
  consumes at least one tick; all loop theorems carry that hypothesis.
-/

namespace NovaLite

/-! ### Generic string helpers (Python `in`, `str.strip`, `os.path.basename`, `str(int)`) -/

/-- `startsWithL s pat` : the char list `s` starts with `pat`. -/
def startsWithL : List Char → List Char → Bool
  | _, [] => true
  | [], _ :: _ => false
  | a :: as, b :: bs => a == b && startsWithL as bs

/-- `containsL pat s` : `pat` occurs contiguously inside `s`
(Python's `pat in s` for strings). -/
def containsL (pat : List Char) : List Char → Bool
  | [] => startsWithL [] pat
  | c :: as => startsWithL (c :: as) pat || containsL pat as

/-- Python `pat in s` on strings. -/
def strContains (s pat : String) : Bool := containsL pat.data s.data

/-- Decimal digits of a natural number, most significant first; `fuel`
structural recursion (any `fuel > n` is exact). Models Python's `str`
on a nonnegative `int`. -/
def decCharsAux : Nat → Nat → List Char
  | 0, _ => []
  | fuel + 1, n =>
    if n < 10 then [Nat.digitChar n]
    else decCharsAux fuel (n / 10) ++ [Nat.digitChar (n % 10)]

/-- Python's `str(n)` for a nonnegative integer `n`. -/
def decStr (n : Nat) : String := ⟨decCharsAux (n + 1) n⟩

/-- Whitespace removed from both ends of a char list. -/
def stripChars (l : List Char) : List Char :=
  ((l.dropWhile Char.isWhitespace).reverse.dropWhile Char.isWhitespace).reverse

/-- Python's `str.strip()` (no argument): drop leading and trailing
whitespace. -/
def strip (s : String) : String := ⟨stripChars s.data⟩

/-- Characters after the last `'/'`: `os.path.basename`. -/
def basenameChars (l : List Char) : List Char :=
  (l.reverse.takeWhile (fun c => c ≠ '/')).reverse

/-- `os.path.basename` (POSIX flavour). -/
def basename (p : String) : String := ⟨basenameChars p.data⟩

/-- `os.path.join(d, n)` for a directory `d` without a trailing slash and a
relative component `n` (the only shapes the script produces: `n` is an
`os.path.basename` output suffixed with timestamp and extension). -/
def joinPath (d n : String) : String := d ++ "/" ++ n

/-! ### The JSON shape of a model response (`json.loads` output) -/

/-- A JSON-like value, the decoded body of an `invoke_model` response. -/
inductive Jx where
  | str : String → Jx
  | num : Int → Jx
  | arr : List Jx → Jx
  | obj : List (String × Jx) → Jx

/-- Python `j[key]` on a decoded JSON object: `KeyError`/`TypeError`
become `Except.error` carrying the exception text. -/
def jGet (j : Jx) (key : String) : Except String Jx :=
  match j with
  | .obj fields =>
    match fields.lookup key with
    | some v => Except.ok v
    | none => Except.error ("KeyError: " ++ key)
  | _ => Except.error ("TypeError: value is not subscriptable by key " ++ key)

/-- Python `j[i]` on a decoded JSON array. -/
def jIndex (j : Jx) (i : Nat) : Except String Jx :=
  match j with
  | .arr xs =>
    match xs.get? i with
    | some v => Except.ok v
    | none => Except.error "IndexError: list index out of range"
  | _ => Except.error "TypeError: value is not a list"

/-- Coerce a JSON leaf to text (`f.write(content_text)` requires `str`). -/
def jStr (j : Jx) : Except String String :=
  match j with
  | .str s => Except.ok s
  | _ => Except.error "TypeError: write() argument must be str"

/-- `model_response["output"]["message"]["content"][0]["text"]`
(line 155 of the script); a malformed response shape surfaces as an error. -/
def extractText (resp : Jx) : Except String String := do
  let o ← jGet resp "output"
  let m ← jGet o "message"
  let c ← jGet m "content"
  let c0 ← jIndex c 0
  let t ← jGet c0 "text"
  jStr t

/-! ### External collaborators and run configuration -/

/-- The fixed inference parameters (`inf_params`, line 128). -/
structure InferenceConfig where
  maxTokens : Nat
  topP : ℚ
  topK : Nat
  temperature : ℚ

/-- `{"maxTokens": 3000, "topP": 0.1, "topK": 20, "temperature": 0.3}`. -/
def inf_params : InferenceConfig := ⟨3000, 1/10, 20, 3/10⟩

/-- The request body handed to `client.invoke_model` (lines 110-135):
one user message holding the image block and the fixed prompt, plus the
inference parameters. `sourceBytes` holds the (base64-transcoded) image
content; the transcoding itself is content-preserving plumbing at the
collaborator boundary and is not given its own algebra here. -/
structure Request where
  schemaVersion : String
  format : String
  sourceBytes : String
  text : String
  inferenceConfig : InferenceConfig

/-- The environment of one run: the immutable configuration captured at
start plus the external collaborators of section 6 of the spec.
`readFile` is `open(path, "rb").read()`; `invoke` bundles
`client.invoke_model`, `response["body"].read()` and `json.loads`, any of
which may raise (= return `Except.error`); `guessMime` is
`mimetypes.guess_type(path)[0]`; `ctime` renders `time.ctime()` for log
lines. -/
structure Env where
  outputDir : String
  ctime : String
  guessMime : String → Option String
  readFile : String → Except String String
  invoke : Request → Except String Jx

/-- The fixed instruction text `PROMPT` (lines 45-89 of the script). -/
def PROMPT : String :=
  "You are an AI assistant specialized in analyzing screenshots from Zoom meeting calls. Your task is to extract OCR text, generate captions, and provide this information in a structured XML format.\n" ++
  "Please follow these steps to analyze the screenshot and generate your response:\n\n" ++
  "1. Extract OCR Text:\n" ++
  "- Carefully examine the screenshot and identify all visible text.\n" ++
  "- Include text from tables, charts, images, and any other elements present.\n" ++
  "- This text will be used to extract keywords and provide context for your analysis.\n\n" ++
  "2. Determine Screenshot Type:\n" ++
  "- Identify whether the screenshot is of an interactive session (e.g., coding environment, terminal) or a document/slide.\n\n" ++
  "3. Generate Captions:\n" ++
  "- Create two captions: a detailed long caption and a concise short caption.\n" ++
  "- Adjust the level of detail based on the complexity of the screenshot.\n\n" ++
  "For interactive sessions:\n" ++
  "- Provide a brief, high-level description (1-3 sentences).\n" ++
  "- Focus on the environment or tools being used (e.g., IDE, terminal).\n" ++
  "- Avoid describing specific content or sensitive information.\n\n" ++
  "For documents or slides:\n" ++
  "- For text-heavy slides:\n" ++
  "    * Describe key elements such as titles, dates, names, and terms visible in the slide.\n" ++
  "    * Include section headers, bullet points, agenda items, project names, timelines, deliverables, performance metrics, recommendations, meeting objectives, key terms, calls to action, presenter or team information, citations, and status updates.\n" ++
  "- For slides with visual elements (graphs, charts, tables):\n" ++
  "    * Describe all visible elements in detail, including chart titles, axis labels, legends, data points, and visual highlights.\n" ++
  "    * Include exact numbers when relevant.\n" ++
  "    * If there are multiple figures or graphs, describe each one in detail.\n\n" ++
  "4. Format Your Response:\n" ++
  "Present your analysis and output in the following XML structure:\n\n" ++
  "<ocr>\n[All extracted OCR text]\n</ocr>\n\n" ++
  "<caption>\n[Detailed caption describing the screenshot content]\n</caption>\n\n" ++
  "<short_caption>\n[Concise summary of the screenshot (1-2 sentences)]\n</short_caption>\n\n" ++
  "Study the following examples carefully. They illustrate the expected level of detail and format for different types of screenshots. Use these examples as a guide for your own analysis and output generation."

/-! ### ItemProcessor: `process_image` (lines 91-167) -/

/-- `mimetypes.guess_type(image_path)[0] or 'application/octet-stream'`
(line 96). -/
def mimeTypeOf (env : Env) (p : String) : String :=
  (env.guessMime p).getD "application/octet-stream"

/-- Lines 105-107: `image_format = "jpeg"; if mime_type and "png" in
mime_type: image_format = "png"` (the `or` default makes `mime_type`
always truthy, so the test reduces to the containment). -/
def imageFormat (mime : String) : String :=
  if strContains mime "png" then "png" else "jpeg"

/-- The request built on lines 110-135 for one image. -/
def buildRequest (env : Env) (p : String) (data : String) : Request :=
  ⟨"messages-v1", imageFormat (mimeTypeOf env p), data, PROMPT, inf_params⟩

/-- Line 139:
`os.path.join(args.output_dir, f"{os.path.basename(image_path)}_{timestamp}.txt")`. -/
def outputFileName (env : Env) (p : String) (ts : Nat) : String :=
  joinPath env.outputDir (basename p ++ "_" ++ decStr ts ++ ".txt")

/-- Line 140: `f"{output_file}_response.json"`. -/
def responseFileName (env : Env) (p : String) (ts : Nat) : String :=
  outputFileName env p ts ++ "_response.json"

/-- The "Processing image: ..." log line (line 97). -/
def startLine (env : Env) (p : String) : String :=
  env.ctime ++ ": Processing image: " ++ p ++ " (MIME type: " ++ mimeTypeOf env p ++ ")"

/-- The "Error processing ..." log line written by the `except` handler
(line 165). -/
def errLine (env : Env) (p e : String) : String :=
  env.ctime ++ ": Error processing " ++ p ++ ": " ++ e

/-- The content of one output artifact: the raw structured response
(`json.dump`, line 152) or the extracted text (`f.write`, line 157). -/
inductive ArtifactData where
  | json : Jx → ArtifactData
  | text : String → ArtifactData

/-- The observable result of one `process_image` call: its return value
(`True`/`False`), the lines it appended to the log sink, and the artifact
files it wrote (name, content), in order. -/
structure ProcResult where
  ok : Bool
  log : List String
  files : List (String × ArtifactData)

/-- `process_image(image_path)` (lines 91-167). The `try` body is laid
out branch by branch; every `Except.error` of a collaborator falls
through to the model of the `except` handler (log the item identity and
the reason, return `False`). Note the raw response file is written
before text extraction, so a malformed response shape still leaves the
raw artifact behind (lines 151-157). -/
def process_image (env : Env) (ts : Nat) (image_path : String) : ProcResult :=
  match env.readFile image_path with
  | .error e => ⟨false, [startLine env image_path, errLine env image_path e], []⟩
  | .ok data =>
    let output_file := outputFileName env image_path ts
    let response_file := responseFileName env image_path ts
    match env.invoke (buildRequest env image_path data) with
    | .error e => ⟨false, [startLine env image_path, errLine env image_path e], []⟩
    | .ok model_response =>
      match extractText model_response with
      | .error e =>
        ⟨false, [startLine env image_path, errLine env image_path e],
          [(response_file, .json model_response)]⟩
      | .ok content_text =>
        ⟨true, [startLine env image_path],
          [(response_file, .json model_response), (output_file, .text content_text)]⟩

/-- The first collaborator error hit by the `try` body of
`process_image`, if any — `none` means the attempt succeeds. Mirrors the
branch order of `process_image`. -/
def attemptError (env : Env) (p : String) : Option String :=
  match env.readFile p with
  | .error e => some e
  | .ok data =>
    match env.invoke (buildRequest env p data) with
    | .error e => some e
    | .ok model_response =>
      match extractText model_response with
      | .error e => some e
      | .ok _ => none

/-! ### BatchRunner: `process_all_images` (lines 169-179) and the main loop -/

/-- Line 173: `[line.strip() for line in f if line.strip()]` — strip each
line, keep the non-blank ones. -/
def parseWorkList (lines : List String) : List String :=
  (lines.filter (fun line => strip line != "")).map strip

/-- The per-item denotation of one batch: every parsed work item produces
the outcome of its own `process_image` call (the `executor.map` fan-out of
lines 178-179; `ts` is the batch's `int(time.time())`). Interleaving-
sensitive aspects are covered by the `PoolStep` relation below. -/
def process_all_images (env : Env) (ts : Nat) (lines : List String) : List Bool :=
  (parseWorkList lines).map (fun p => (process_image env ts p).ok)

/-- A snapshot of the `ThreadPoolExecutor` of one batch: items not yet
handed to a worker, items being processed, and finished items paired with
their outcome. -/
structure PoolState where
  pending : List String
  running : List String
  done : List (String × Bool)

/-- The pool at batch start: everything pending. -/
def initPool (items : List String) : PoolState := ⟨items, [], []⟩

/-- One scheduler move of the fixed-size pool (`max_workers = w`), with
`f` the per-item outcome function: either a worker picks up the next
pending item (only when fewer than `w` run), or some running item
finishes and records its outcome. Quantifying over all `PoolStep` paths
quantifies over all dispatch/completion interleavings. -/
inductive PoolStep (f : String → Bool) (w : Nat) : PoolState → PoolState → Prop where
  | dispatch : ∀ (x : String) (rest run : List String) (d : List (String × Bool)),
      run.length < w →
      PoolStep f w ⟨x :: rest, run, d⟩ ⟨rest, x :: run, d⟩
  | complete : ∀ (pend run : List String) (d : List (String × Bool)) (x : String),
      x ∈ run →
      PoolStep f w ⟨pend, run, d⟩ ⟨pend, run.erase x, (x, f x) :: d⟩

/-- All pool states reachable by some interleaving. -/
def PoolReach (f : String → Bool) (w : Nat) : PoolState → PoolState → Prop :=
  Relation.ReflTransGen (PoolStep f w)

/-- The batch boundary: `with ThreadPoolExecutor(...)` exits through
`shutdown(wait=True)`, which returns only once nothing is pending or
running. -/
def drainedPool (s : PoolState) : Prop := s.pending = [] ∧ s.running = []

/-- The observable trace of the main `while time.time() < end_time` loop
(lines 183-188): whether an exception escaped (the work-list `open` of
line 172 is not inside any `try`), the outcome lists of the completed
batches in order, how many times the deadline was checked, and the time
when the process left the loop. -/
structure LoopOut where
  crashed? : Option String
  batches : List (List Bool)
  checks : Nat
  endTime : Int

/-- The loop body on fuel. Each iteration: one deadline check; if before
the deadline, read the work list fresh (`contents now`; an unreadable
list raises out of the loop), run one full batch (its items stamped with
the batch's clock), and go round again `T` ticks later (`T` = wall time
one batch takes to drain). -/
def batchLoopAux (env : Env) (contents : Int → Except String (List String))
    (deadline T : Int) : Nat → Int → LoopOut
  | 0, now => ⟨none, [], 0, now⟩
  | fuel + 1, now =>
    if now < deadline then
      match contents now with
      | .error e => ⟨some e, [], 1, now⟩
      | .ok lines =>
        let batch := process_all_images env now.toNat lines
        let r := batchLoopAux env contents deadline T fuel (now + T)
        ⟨r.crashed?, batch :: r.batches, r.checks + 1, r.endTime⟩
    else ⟨none, [], 1, now⟩

/-- The main loop started at `now` against the fixed `deadline`
(`end_time = time.time() + args.duration`, line 183, computed once and
never written again). The fuel is exact whenever `1 ≤ T`. -/
def batchLoop (env : Env) (contents : Int → Except String (List String))
    (deadline T now : Int) : LoopOut :=
  batchLoopAux env contents deadline T ((deadline - now).toNat + 1) now

/-- Missing a `required=True` option makes `argparse` print usage and
`sys.exit(2)` before any other statement runs (lines 16-24). -/
def parseArgs (imageList? profileArn? : Option String) : Except Nat (String × String) :=
  match imageList?, profileArn? with
  | some i, some p => Except.ok (i, p)
  | _, _ => Except.error 2

/-- The whole process: argument parsing, then the deadline loop. An
uncaught exception in the loop terminates the interpreter with exit
status 1; a completed loop falls off the end of the script and exits 0.
Returns (exit status, loop trace). -/
def runMain (imageList? profileArn? : Option String) (env : Env)
    (contents : Int → Except String (List String)) (startTime duration T : Int) :
    Nat × LoopOut :=
  match parseArgs imageList? profileArn? with
  | .error c => (c, ⟨none, [], 0, startTime⟩)
  | .ok _ =>
    let r := batchLoop env contents (startTime + duration) T startTime
    (if r.crashed?.isSome then 1 else 0, r)

/-! ### Concrete instances used by witnesses and counterexamples -/

/-- A concrete environment: an unknown MIME type and a failing input
file, as for a nonexistent path in the work list. -/
def envC : Env where
  outputDir := "out"
  ctime := "Mon Oct 12 00:00:00 2026"
  guessMime := fun _ => none
  readFile := fun _ => Except.error "No such file or directory"
  invoke := fun _ => Except.error "service error"

/-- A work-list source that can never be read. -/
def badContents : Int → Except String (List String) :=
  fun _ => Except.error "No such file or directory: list.txt"

/-- A work-list source holding one image path at every instant. -/
def oneContents : Int → Except String (List String) :=
  fun _ => Except.ok ["a.png"]

/-- The line view of `oneContents`. -/
def oneLines : Int → List String := fun _ => ["a.png"]

/-! ### Lemmas about the string helpers -/

lemma startsWithL_append_self : ∀ (p b : List Char), startsWithL (p ++ b) p = true := by
  intro p
  induction p with
  | nil => intro b; simp [startsWithL]
  | cons c p ih => intro b; simp [startsWithL, ih]

lemma containsL_of_startsWithL {s p : List Char} (h : startsWithL s p = true) :
    containsL p s = true := by
  cases s with
  | nil => exact h
  | cons c as => simp [containsL, h]

lemma containsL_append_middle : ∀ (a p b : List Char), containsL p (a ++ (p ++ b)) = true := by
  intro a p b
  induction a with
  | nil => exact containsL_of_startsWithL (startsWithL_append_self p b)
  | cons c a ih => simp [containsL, ih]

lemma strContains_append_middle (a p b : String) : strContains ((a ++ p) ++ b) p = true := by
  unfold strContains
  have h : ((a ++ p) ++ b).data = a.data ++ (p.data ++ b.data) := by
    simp [String.data_append]
  rw [h]
  exact containsL_append_middle a.data p.data b.data

lemma strContains_append_right (a p : String) : strContains (a ++ p) p = true := by
  unfold strContains
  have h : (a ++ p).data = a.data ++ (p.data ++ []) := by
    simp [String.data_append]
  rw [h]
  exact containsL_append_middle a.data p.data []

/-! ### Lemmas about decimal rendering -/

lemma digitChar_isDigit : ∀ k < 10, (Nat.digitChar k).isDigit = true := by decide

lemma digitChar_inj10 : ∀ n < 10, ∀ m < 10, Nat.digitChar n = Nat.digitChar m → n = m := by
  decide

lemma decCharsAux_isDigit : ∀ fuel n, n < fuel → ∀ c ∈ decCharsAux fuel n, c.isDigit = true := by
  intro fuel
  induction fuel with
  | zero => intro n h; omega
  | succ fuel ih =>
    intro n h c hc
    unfold decCharsAux at hc
    by_cases h10 : n < 10
    · rw [if_pos h10] at hc
      simp only [List.mem_singleton] at hc
      subst hc
      exact digitChar_isDigit n h10
    · rw [if_neg h10] at hc
      rcases List.mem_append.mp hc with h1 | h2
      · have hdiv : n / 10 < n := Nat.div_lt_self (by omega) (by omega)
        exact ih (n / 10) (by omega) c h1
      · simp only [List.mem_singleton] at h2
        subst h2
        exact digitChar_isDigit _ (Nat.mod_lt _ (by omega))

lemma decCharsAux_ne_nil : ∀ fuel n, n < fuel → decCharsAux fuel n ≠ [] := by
  intro fuel n h
  cases fuel with
  | zero => omega
  | succ fuel =>
    unfold decCharsAux
    by_cases h10 : n < 10
    · rw [if_pos h10]; simp
    · rw [if_neg h10]; simp

lemma decCharsAux_inj : ∀ fuel fuel' n m, n < fuel → m < fuel' →
    decCharsAux fuel n = decCharsAux fuel' m → n = m := by
  intro fuel
  induction fuel with
  | zero => intro fuel' n m hn; omega
  | succ fuel ih =>
    intro fuel' n m hn hm heq
    cases fuel' with
    | zero => omega
    | succ fuel' =>
      unfold decCharsAux at heq
      by_cases hn10 : n < 10 <;> by_cases hm10 : m < 10
      · rw [if_pos hn10, if_pos hm10] at heq
        simp only [List.cons.injEq, and_true] at heq
        exact digitChar_inj10 n hn10 m hm10 heq
      · rw [if_pos hn10, if_neg hm10] at heq
        have hne : decCharsAux fuel' (m / 10) ≠ [] := by
          have hdiv : m / 10 < m := Nat.div_lt_self (by omega) (by omega)
          exact decCharsAux_ne_nil fuel' (m / 10) (by omega)
        have hpos : 0 < (decCharsAux fuel' (m / 10)).length := List.length_pos.mpr hne
        have hlen : (1 : Nat) = (decCharsAux fuel' (m / 10)).length + 1 := by
          have h := congrArg List.length heq
          simpa [List.length_append] using h
        omega
      · rw [if_neg hn10, if_pos hm10] at heq
        have hne : decCharsAux fuel (n / 10) ≠ [] := by
          have hdiv : n / 10 < n := Nat.div_lt_self (by omega) (by omega)
          exact decCharsAux_ne_nil fuel (n / 10) (by omega)
        have hpos : 0 < (decCharsAux fuel (n / 10)).length := List.length_pos.mpr hne
        have hlen : (decCharsAux fuel (n / 10)).length + 1 = 1 := by
          have h := congrArg List.length heq
          simpa [List.length_append] using h
        omega
      · rw [if_neg hn10, if_neg hm10] at heq
        obtain ⟨h1, h2⟩ := List.append_inj' heq rfl
        simp only [List.cons.injEq, and_true] at h2
        have hmod : n % 10 = m % 10 :=
          digitChar_inj10 _ (Nat.mod_lt _ (by omega)) _ (Nat.mod_lt _ (by omega)) h2
        have hdn : n / 10 < n := Nat.div_lt_self (by omega) (by omega)
        have hdm : m / 10 < m := Nat.div_lt_self (by omega) (by omega)
        have hdiv : n / 10 = m / 10 := ih fuel' (n / 10) (m / 10) (by omega) (by omega) h1
        omega

lemma decStr_inj {n m : Nat} (h : decStr n = decStr m) : n = m := by
  have hd := congrArg String.data h
  exact decCharsAux_inj (n + 1) (m + 1) n m (Nat.lt_succ_self n) (Nat.lt_succ_self m) hd

lemma decStr_no_underscore (n : Nat) : ∀ c ∈ (decStr n).data, c ≠ '_' := by
  intro c hc he
  have h := decCharsAux_isDigit (n + 1) n (Nat.lt_succ_self n) c hc
  subst he
  exact absurd h (by decide)

/-! ### Splitting a char list at a separator -/

lemma sep_split_first : ∀ (a1 a2 b1 b2 : List Char),
    a1 ++ '_' :: b1 = a2 ++ '_' :: b2 →
    (∀ c ∈ a1, c ≠ '_') → (∀ c ∈ a2, c ≠ '_') →
    a1 = a2 ∧ b1 = b2 := by
  intro a1
  induction a1 with
  | nil =>
    intro a2 b1 b2 h h1 h2
    cases a2 with
    | nil =>
      simp only [List.nil_append, List.cons.injEq, true_and] at h ⊢
      exact h
    | cons y a2 =>
      exfalso
      simp only [List.nil_append, List.cons_append, List.cons.injEq] at h
      exact h2 y (List.mem_cons_self y a2) h.1.symm
  | cons x a1 ih =>
    intro a2 b1 b2 h h1 h2
    cases a2 with
    | nil =>
      exfalso
      simp only [List.nil_append, List.cons_append, List.cons.injEq] at h
      exact h1 x (List.mem_cons_self x a1) h.1
    | cons y a2 =>
      simp only [List.cons_append, List.cons.injEq] at h
      obtain ⟨hxy, htail⟩ := h
      obtain ⟨ha, hb⟩ := ih a2 b1 b2 htail
        (fun c hc => h1 c (List.mem_cons_of_mem x hc))
        (fun c hc => h2 c (List.mem_cons_of_mem y hc))
      exact ⟨by rw [hxy, ha], hb⟩

lemma sep_split_last {a1 a2 b1 b2 : List Char}
    (h : a1 ++ '_' :: b1 = a2 ++ '_' :: b2)
    (h1 : ∀ c ∈ b1, c ≠ '_') (h2 : ∀ c ∈ b2, c ≠ '_') :
    a1 = a2 ∧ b1 = b2 := by
  have hr := congrArg List.reverse h
  have e1 : (a1 ++ '_' :: b1).reverse = b1.reverse ++ '_' :: a1.reverse := by
    simp [List.reverse_append]
  have e2 : (a2 ++ '_' :: b2).reverse = b2.reverse ++ '_' :: a2.reverse := by
    simp [List.reverse_append]
  rw [e1, e2] at hr
  obtain ⟨hb, ha⟩ := sep_split_first b1.reverse b2.reverse a1.reverse a2.reverse hr
    (fun c hc => h1 c (List.mem_reverse.mp hc))
    (fun c hc => h2 c (List.mem_reverse.mp hc))
  exact ⟨List.reverse_injective ha, List.reverse_injective hb⟩

/-! ### Artifact names: injectivity and distinctness -/

lemma outputFileName_inj {env : Env} {p1 p2 : String} {t1 t2 : Nat}
    (h : outputFileName env p1 t1 = outputFileName env p2 t2) :
    basename p1 = basename p2 ∧ t1 = t2 := by
  have hd := congrArg String.data h
  simp only [outputFileName, joinPath, String.data_append, List.append_assoc] at hd
  replace hd := List.append_cancel_left hd
  replace hd := List.append_cancel_left hd
  simp only [List.singleton_append] at hd
  have htxt : ∀ c ∈ ['.', 't', 'x', 't'], c ≠ '_' := by decide
  obtain ⟨hb, hrest⟩ := sep_split_last hd
    (fun c hc => by
      rcases List.mem_append.mp hc with h1 | h1
      · exact decStr_no_underscore t1 c h1
      · exact htxt c h1)
    (fun c hc => by
      rcases List.mem_append.mp hc with h1 | h1
      · exact decStr_no_underscore t2 c h1
      · exact htxt c h1)
  refine ⟨String.ext hb, ?_⟩
  have hdec : (decStr t1).data = (decStr t2).data := List.append_cancel_right hrest
  exact decCharsAux_inj (t1 + 1) (t2 + 1) t1 t2 (Nat.lt_succ_self t1) (Nat.lt_succ_self t2) hdec

lemma responseFileName_inj {env : Env} {p1 p2 : String} {t1 t2 : Nat}
    (h : responseFileName env p1 t1 = responseFileName env p2 t2) :
    basename p1 = basename p2 ∧ t1 = t2 := by
  have hd := congrArg String.data h
  simp only [responseFileName, String.data_append] at hd
  have ho : (outputFileName env p1 t1).data = (outputFileName env p2 t2).data :=
    List.append_cancel_right hd
  exact outputFileName_inj (String.ext ho)

lemma outputFileName_last (env : Env) (p : String) (ts : Nat) :
    (outputFileName env p ts).data.reverse.head? = some 't' := by
  have hd : (outputFileName env p ts).data
      = ((env.outputDir ++ "/").data ++ ((basename p ++ "_" ++ decStr ts).data ++ ".txt".data)) := by
    simp [outputFileName, joinPath, String.data_append]
  rw [hd]
  have er : ".txt".data.reverse = 't' :: ['x', 't', '.'] := rfl
  simp [List.reverse_append, er]

lemma responseFileName_last (env : Env) (p : String) (ts : Nat) :
    (responseFileName env p ts).data.reverse.head? = some 'n' := by
  have hd : (responseFileName env p ts).data
      = (outputFileName env p ts).data ++ "_response.json".data := by
    simp [responseFileName, String.data_append]
  rw [hd]
  have er : "_response.json".data.reverse = 'n' :: "osj.esnopser_".data := rfl
  simp [List.reverse_append, er]

lemma outputFileName_ne_responseFileName (env : Env) (p1 p2 : String) (t1 t2 : Nat) :
    outputFileName env p1 t1 ≠ responseFileName env p2 t2 := by
  intro h
  have h1 := outputFileName_last env p1 t1
  rw [h, responseFileName_last env p2 t2] at h1
  simp at h1

/-! ### The failure path of `process_image` -/

lemma process_image_of_attemptError (env : Env) (ts : Nat) (p e : String)
    (h : attemptError env p = some e) :
    (process_image env ts p).ok = false ∧
    (process_image env ts p).log = [startLine env p, errLine env p e] := by
  cases hr : env.readFile p with
  | error e1 =>
    simp only [attemptError, hr, Option.some.injEq] at h
    subst h
    simp [process_image, hr]
  | ok data =>
    cases hi : env.invoke (buildRequest env p data) with
    | error e1 =>
      simp only [attemptError, hr, hi, Option.some.injEq] at h
      subst h
      simp [process_image, hr, hi]
    | ok resp =>
      cases hx : extractText resp with
      | error e1 =>
        simp only [attemptError, hr, hi, hx, Option.some.injEq] at h
        subst h
        simp [process_image, hr, hi, hx]
      | ok t =>
        simp only [attemptError, hr, hi, hx] at h
        exact Option.noConfusion h

lemma process_image_files_of_ok (env : Env) (ts : Nat) (p : String)
    (h : (process_image env ts p).ok = true) :
    (process_image env ts p).files.map Prod.fst
      = [responseFileName env p ts, outputFileName env p ts] := by
  cases hr : env.readFile p with
  | error e1 =>
    simp only [process_image, hr] at h
    exact Bool.noConfusion h
  | ok data =>
    cases hi : env.invoke (buildRequest env p data) with
    | error e1 =>
      simp only [process_image, hr, hi] at h
      exact Bool.noConfusion h
    | ok resp =>
      cases hx : extractText resp with
      | error e1 =>
        simp only [process_image, hr, hi, hx] at h
        exact Bool.noConfusion h
      | ok t => simp [process_image, hr, hi, hx]

/-! ### Invariants of the worker-pool step relation -/

lemma pool_inv (f : String → Bool) (w : Nat) (items : List String) :
    ∀ {s : PoolState}, PoolReach f w (initPool items) s →
    List.Perm (s.pending ++ s.running ++ s.done.map Prod.fst) items ∧
    ∀ q ∈ s.done, q.2 = f q.1 := by
  intro s h
  induction h with
  | refl => constructor <;> simp [initPool]
  | tail hr hstep ih =>
    obtain ⟨ihp, ihd⟩ := ih
    cases hstep with
    | dispatch x rest run d hlen =>
      refine ⟨?_, ihd⟩
      refine List.Perm.trans ?_ ihp
      have e1 : rest ++ x :: run ++ d.map Prod.fst
          = rest ++ x :: (run ++ d.map Prod.fst) := by
        simp [List.append_assoc]
      have e2 : x :: rest ++ run ++ d.map Prod.fst
          = x :: (rest ++ (run ++ d.map Prod.fst)) := by
        simp [List.append_assoc]
      rw [e1, e2]
      exact List.perm_middle
    | complete pend run d x hx =>
      constructor
      · refine List.Perm.trans ?_ ihp
        have h1 : List.Perm (run.erase x ++ x :: d.map Prod.fst)
            (run ++ d.map Prod.fst) := by
          refine List.Perm.trans List.perm_middle ?_
          exact (List.perm_cons_erase hx).symm.append_right (d.map Prod.fst)
        have e1 : pend ++ run.erase x ++ ((x, f x) :: d).map Prod.fst
            = pend ++ (run.erase x ++ x :: d.map Prod.fst) := by
          simp [List.append_assoc]
        have e2 : pend ++ run ++ d.map Prod.fst
            = pend ++ (run ++ d.map Prod.fst) := by
          simp [List.append_assoc]
        rw [e1, e2]
        exact List.Perm.append_left pend h1
      · intro q hq
        rcases List.mem_cons.mp hq with h1 | h1
        · subst h1; rfl
        · exact ihd q h1

lemma pool_drained_done_perm {f : String → Bool} {w : Nat} {items : List String}
    {s : PoolState} (h : PoolReach f w (initPool items) s) (hd : drainedPool s) :
    List.Perm s.done (items.map (fun q => (q, f q))) := by
  obtain ⟨hp, hr⟩ := hd
  obtain ⟨hperm, hdone⟩ := pool_inv f w items h
  rw [hp, hr] at hperm
  simp only [List.nil_append] at hperm
  have h2 : s.done = (s.done.map Prod.fst).map (fun q => (q, f q)) := by
    rw [List.map_map]
    have h3 : s.done.map ((fun q => (q, f q)) ∘ Prod.fst) = s.done.map id :=
      List.map_congr_left (fun q hq => by
        have := hdone q hq
        cases q with
        | mk q1 q2 => simp_all)
    rw [h3, List.map_id]
  rw [h2]
  exact hperm.map (fun q => (q, f q))

lemma pool_drained_mem {f : String → Bool} {w : Nat} {items : List String}
    {s : PoolState} (h : PoolReach f w (initPool items) s) (hd : drainedPool s) :
    ∀ q ∈ items, (q, f q) ∈ s.done := by
  intro q hq
  have hperm := pool_drained_done_perm h hd
  exact hperm.mem_iff.mpr (List.mem_map_of_mem (fun q => (q, f q)) hq)

lemma pool_progress {f : String → Bool} {w : Nat} {s : PoolState}
    (hnd : ¬ drainedPool s) (hw : 1 ≤ w) : ∃ t, PoolStep f w s t := by
  obtain ⟨pend, run, d⟩ := s
  by_cases hrun : run = []
  · subst hrun
    cases pend with
    | nil => exact absurd ⟨rfl, rfl⟩ hnd
    | cons x rest =>
      exact ⟨⟨rest, [x], d⟩, PoolStep.dispatch x rest [] d (by simpa using hw)⟩
  · cases run with
    | nil => exact absurd rfl hrun
    | cons x run =>
      exact ⟨⟨pend, (x :: run).erase x, (x, f x) :: d⟩,
        PoolStep.complete pend (x :: run) d x (List.mem_cons_self x run)⟩

/-! ### Work-list parsing lemmas -/

lemma parseWorkList_eq_filterMap (ls : List String) :
    parseWorkList ls
      = ls.filterMap (fun l => if strip l = "" then none else some (strip l)) := by
  induction ls with
  | nil => rfl
  | cons l ls ih =>
    by_cases h : strip l = ""
    · simp [parseWorkList, List.filterMap_cons, h] at ih ⊢
      exact ih
    · simp [parseWorkList, List.filterMap_cons, h] at ih ⊢
      exact ih

lemma parseWorkList_all_blank (ls : List String) (h : ∀ l ∈ ls, strip l = "") :
    parseWorkList ls = [] := by
  unfold parseWorkList
  have hf : ls.filter (fun line => strip line != "") = [] :=
    List.filter_eq_nil_iff.mpr (fun l hl => by simp [h l hl])
  rw [hf]
  rfl

/-! ### Unfolding equations of the main loop -/

lemma batchLoopAux_succ_ge (env : Env) (contents : Int → Except String (List String))
    (d T : Int) (fuel : Nat) (now : Int) (h : ¬ now < d) :
    batchLoopAux env contents d T (fuel + 1) now = ⟨none, [], 1, now⟩ := by
  simp [batchLoopAux, h]

lemma batchLoopAux_succ_err (env : Env) (contents : Int → Except String (List String))
    (d T : Int) (fuel : Nat) (now : Int) (e : String)
    (h : now < d) (hc : contents now = Except.error e) :
    batchLoopAux env contents d T (fuel + 1) now = ⟨some e, [], 1, now⟩ := by
  simp [batchLoopAux, h, hc]

lemma batchLoopAux_succ_ok (env : Env) (contents : Int → Except String (List String))
    (d T : Int) (fuel : Nat) (now : Int) (ls : List String)
    (h : now < d) (hc : contents now = Except.ok ls) :
    batchLoopAux env contents d T (fuel + 1) now =
      ⟨(batchLoopAux env contents d T fuel (now + T)).crashed?,
       process_all_images env now.toNat ls
         :: (batchLoopAux env contents d T fuel (now + T)).batches,
       (batchLoopAux env contents d T fuel (now + T)).checks + 1,
       (batchLoopAux env contents d T fuel (now + T)).endTime⟩ := by
  simp [batchLoopAux, h, hc]

/-- The behaviour of the main loop on sufficient fuel over a readable
work-list source: it never crashes, runs for `batches.length` batches of
`T` ticks each, only stops once past the deadline, checks the deadline
once more than it runs batches, overshoots the deadline by less than one
batch, and reads the work list afresh at the start time of every batch. -/
lemma batchLoopAux_spec (env : Env) (contents : Int → Except String (List String))
    (lines : Int → List String) (d T : Int) (hT : 1 ≤ T)
    (hread : ∀ t, contents t = Except.ok (lines t)) :
    ∀ (fuel : Nat) (now : Int), (d - now).toNat < fuel →
    (batchLoopAux env contents d T fuel now).crashed? = none ∧
    (batchLoopAux env contents d T fuel now).endTime
      = now + ((batchLoopAux env contents d T fuel now).batches.length : Int) * T ∧
    d ≤ (batchLoopAux env contents d T fuel now).endTime ∧
    (batchLoopAux env contents d T fuel now).checks
      = (batchLoopAux env contents d T fuel now).batches.length + 1 ∧
    (now < d → (batchLoopAux env contents d T fuel now).endTime < d + T) ∧
    (¬ now < d → (batchLoopAux env contents d T fuel now).batches = []) ∧
    (batchLoopAux env contents d T fuel now).batches
      = (List.range (batchLoopAux env contents d T fuel now).batches.length).map
          (fun (k : Nat) => process_all_images env (now + (k : Int) * T).toNat
            (lines (now + (k : Int) * T))) := by
  intro fuel
  induction fuel with
  | zero => intro now h; omega
  | succ fuel ih =>
    intro now hfuel
    by_cases hnd : now < d
    · rw [batchLoopAux_succ_ok env contents d T fuel now (lines now) hnd (hread now)]
      obtain ⟨ic, ie, idl, ick, iov, inb, irm⟩ := ih (now + T) (by omega)
      have hcast : ∀ n : Nat, ((n + 1 : Nat) : Int) * T = (n : Int) * T + T := by
        intro n; push_cast; ring
      refine ⟨ic, ?_, ?_, ?_, ?_, ?_, ?_⟩
      · simp only [List.length_cons]
        rw [hcast, ie]
        ring
      · simpa using idl
      · simp [ick]
      · intro _
        by_cases hnd2 : now + T < d
        · simpa using iov hnd2
        · have hb0 : (batchLoopAux env contents d T fuel (now + T)).batches = [] :=
            inb hnd2
          have : (batchLoopAux env contents d T fuel (now + T)).endTime = now + T := by
            rw [ie, hb0]
            simp
          simp only [this]
          omega
      · intro hcon
        exact absurd hnd hcon
      · simp only [List.length_cons]
        rw [List.range_succ_eq_map, List.map_cons, List.map_map]
        simp only [Nat.cast_zero, zero_mul, add_zero]
        refine congrArg₂ List.cons rfl ?_
        conv_lhs => rw [irm]
        refine List.map_congr_left ?_
        intro k _
        have e1 : now + ((k + 1 : Nat) : Int) * T = now + T + (k : Int) * T := by
          push_cast; ring
        simp only [Function.comp_apply, Nat.succ_eq_add_one, e1]
    · rw [batchLoopAux_succ_ge env contents d T fuel now hnd]
      refine ⟨rfl, by simp, by simpa using hnd, rfl, fun h => absurd h hnd, fun _ => rfl, by simp⟩

/-! ### The claims -/

/-- C1: for every work item and every error raised while processing it
(unreadable input file, transport/service error from the inference call,
malformed response shape — exactly the cases `attemptError` enumerates),
`process_image` catches the error, appends a log line containing the item
identity and the reason, and returns the failure outcome `false`; its
embedding is a total function into `ProcResult`, so nothing propagates to
the caller, and in any drained batch every sibling item still records its
own outcome regardless of this item's failure. -/
theorem c1_failure_isolation (env : Env) (ts : Nat) (p e : String)
    (h : attemptError env p = some e) :
    (process_image env ts p).ok = false ∧
    errLine env p e ∈ (process_image env ts p).log ∧
    strContains (errLine env p e) p = true ∧
    strContains (errLine env p e) e = true ∧
    (∀ (w : Nat) (items : List String) (s : PoolState), 1 ≤ w → p ∈ items →
      PoolReach (fun q => (process_image env ts q).ok) w (initPool items) s →
      drainedPool s →
      ∀ q ∈ items, (q, (process_image env ts q).ok) ∈ s.done) := by
  obtain ⟨hok, hlog⟩ := process_image_of_attemptError env ts p e h
  refine ⟨hok, ?_, ?_, ?_, ?_⟩
  · rw [hlog]; simp
  · have he : errLine env p e
        = ((env.ctime ++ ": Error processing ") ++ p) ++ (": " ++ e) :=
      String.append_assoc ((env.ctime ++ ": Error processing ") ++ p) ": " e
    rw [he]
    exact strContains_append_middle (env.ctime ++ ": Error processing ") p (": " ++ e)
  · exact strContains_append_right (((env.ctime ++ ": Error processing ") ++ p) ++ ": ") e
  · intro w items s _hw _hp hreach hdrain
    exact pool_drained_mem hreach hdrain

/-- C1 witness: a concrete unreadable input file is logged and yields
`false` without escaping `process_image`. -/
theorem c1_failure_isolation_witness :
    (process_image envC 7 "img.png").ok = false ∧
    errLine envC "img.png" "No such file or directory"
      ∈ (process_image envC 7 "img.png").log := by
  have h := c1_failure_isolation envC 7 "img.png" "No such file or directory" rfl
  exact ⟨h.1, h.2.1⟩

/-- C2: for every worker count ≥ 1 and a work list of K parsed items, any
interleaving that drains one batch produces exactly K outcomes, and the
multiset of (item, outcome) pairs is exactly each item paired with its own
`process_image` result. -/
theorem c2_batch_outcome_count (env : Env) (ts : Nat) (w : Nat) (lines : List String)
    (s : PoolState) (_hw : 1 ≤ w)
    (hreach : PoolReach (fun q => (process_image env ts q).ok) w
      (initPool (parseWorkList lines)) s)
    (hdrain : drainedPool s) :
    s.done.length = (parseWorkList lines).length ∧
    List.Perm s.done
      ((parseWorkList lines).map (fun q => (q, (process_image env ts q).ok))) := by
  have hperm := pool_drained_done_perm hreach hdrain
  refine ⟨?_, hperm⟩
  rw [hperm.length_eq, List.length_map]

/-- C2 witness: a one-item work list drained by one worker yields exactly
one outcome. -/
theorem c2_batch_outcome_count_witness :
    (PoolState.mk [] (["a.png"].erase "a.png")
        [("a.png", (process_image envC 7 "a.png").ok)]).done.length
      = (parseWorkList ["a.png"]).length := by
  have hpw : parseWorkList ["a.png"] = ["a.png"] := by decide
  have h1 : PoolStep (fun q => (process_image envC 7 q).ok) 1
      (initPool (parseWorkList ["a.png"])) ⟨[], ["a.png"], []⟩ := by
    rw [hpw]
    exact PoolStep.dispatch "a.png" [] [] [] (by decide)
  have h2 : PoolStep (fun q => (process_image envC 7 q).ok) 1
      (⟨[], ["a.png"], []⟩ : PoolState)
      ⟨[], ["a.png"].erase "a.png", [("a.png", (process_image envC 7 "a.png").ok)]⟩ :=
    PoolStep.complete [] ["a.png"] [] "a.png" (List.mem_cons_self "a.png" [])
  have hreach := Relation.ReflTransGen.tail (Relation.ReflTransGen.single h1) h2
  exact (c2_batch_outcome_count envC 7 1 ["a.png"] _ (by omega) hreach ⟨rfl, by decide⟩).1

/-- C3: the batch boundary is a full join — in any reachable drained state
every item of the batch has recorded an outcome in `done` (no partial-batch
abandonment, no forced cancellation), and any reachable undrained state can
still take a scheduler step, so draining is the only way the batch ends. -/
theorem c3_full_join (env : Env) (ts : Nat) (w : Nat) (items : List String)
    (s : PoolState)
    (hreach : PoolReach (fun q => (process_image env ts q).ok) w (initPool items) s) :
    (drainedPool s → ∀ q ∈ items, (q, (process_image env ts q).ok) ∈ s.done) ∧
    (¬ drainedPool s → 1 ≤ w →
      ∃ t, PoolStep (fun q => (process_image env ts q).ok) w s t) :=
  ⟨fun hd => pool_drained_mem hreach hd, fun hnd hw => pool_progress hnd hw⟩

/-- C3 witness: in a concrete drained one-item batch, the dispatched item
has its outcome recorded. -/
theorem c3_full_join_witness :
    ("b.png", (process_image envC 7 "b.png").ok)
      ∈ (PoolState.mk [] (["b.png"].erase "b.png")
          [("b.png", (process_image envC 7 "b.png").ok)]).done := by
  have h1 : PoolStep (fun q => (process_image envC 7 q).ok) 1
      (initPool ["b.png"]) ⟨[], ["b.png"], []⟩ :=
    PoolStep.dispatch "b.png" [] [] [] (by decide)
  have h2 : PoolStep (fun q => (process_image envC 7 q).ok) 1
      (⟨[], ["b.png"], []⟩ : PoolState)
      ⟨[], ["b.png"].erase "b.png", [("b.png", (process_image envC 7 "b.png").ok)]⟩ :=
    PoolStep.complete [] ["b.png"] [] "b.png" (List.mem_cons_self "b.png" [])
  have hreach := Relation.ReflTransGen.tail (Relation.ReflTransGen.single h1) h2
  exact (c3_full_join envC 7 1 ["b.png"] _ hreach).1 ⟨rfl, by decide⟩ "b.png" (by simp)

/-- C4: the deadline is the fixed instant `s + D` (computed once, a
read-only parameter of the loop) and passing it is the only way the loop
ends (`s + D ≤ endTime`); it is checked only at batch boundaries, so with
per-batch drain time `T < D` the runner performs at least `⌊D / T⌋`
batches (`D / T` is integer division) and terminates within `D + T` of
start; the deadline is checked exactly once more than there are batches. -/
theorem c4_deadline_loop_bounds (env : Env)
    (contents : Int → Except String (List String)) (lines : Int → List String)
    (s D T : Int) (hT : 1 ≤ T) (hTD : T < D)
    (hread : ∀ t, contents t = Except.ok (lines t)) :
    (batchLoop env contents (s + D) T s).crashed? = none ∧
    D / T ≤ ((batchLoop env contents (s + D) T s).batches.length : Int) ∧
    (batchLoop env contents (s + D) T s).endTime < s + D + T ∧
    s + D ≤ (batchLoop env contents (s + D) T s).endTime ∧
    (batchLoop env contents (s + D) T s).checks
      = (batchLoop env contents (s + D) T s).batches.length + 1 := by
  obtain ⟨ic, ie, idl, ick, iov, _, _⟩ :=
    batchLoopAux_spec env contents lines (s + D) T hT hread
      (((s + D) - s).toNat + 1) s (by omega)
  unfold batchLoop
  refine ⟨ic, ?_, iov (by omega), idl, ick⟩
  have hD : D ≤ ((batchLoopAux env contents (s + D) T ((s + D - s).toNat + 1) s).batches.length : Int) * T := by
    rw [ie] at idl
    linarith
  calc D / T
      ≤ (((batchLoopAux env contents (s + D) T ((s + D - s).toNat + 1) s).batches.length : Int) * T) / T :=
        Int.ediv_le_ediv (by omega) hD
    _ = _ := Int.mul_ediv_cancel _ (by omega)

/-- C4 witness: duration 10, batch time 3 — at least 3 batches and
termination before tick 13. -/
theorem c4_deadline_loop_bounds_witness :
    (batchLoop envC oneContents ((0 : Int) + 10) 3 0).crashed? = none ∧
    (10 : Int) / 3 ≤ ((batchLoop envC oneContents ((0 : Int) + 10) 3 0).batches.length : Int) ∧
    (batchLoop envC oneContents ((0 : Int) + 10) 3 0).endTime < 0 + 10 + 3 := by
  have h := c4_deadline_loop_bounds envC oneContents oneLines 0 10 3
    (by omega) (by omega) (fun t => rfl)
  exact ⟨h.1, h.2.1, h.2.2.1⟩

/-- C5: with duration ≤ 0 the runner performs exactly zero batches (no
work item is ever dispatched), performs exactly one deadline check, and
terminates immediately at the start instant, without touching any
collaborator. -/
theorem c5_zero_duration (env : Env) (contents : Int → Except String (List String))
    (s D T : Int) (hD : D ≤ 0) :
    batchLoop env contents (s + D) T s = ⟨none, [], 1, s⟩ := by
  unfold batchLoop
  exact batchLoopAux_succ_ge env contents (s + D) T ((s + D - s).toNat) s (by omega)

/-- C5 witness: duration 0 against an unreadable work-list source still
runs zero batches, one check, and stops at once. -/
theorem c5_zero_duration_witness :
    batchLoop envC badContents ((0 : Int) + 0) 1 0 = ⟨none, [], 1, 0⟩ :=
  c5_zero_duration envC badContents 0 0 1 (by omega)

/-- C6: every batch re-reads the work list at its own start instant
(batch k sees the source as of time `s + k*T`, so external updates between
batches are picked up); parsing keeps exactly the non-blank lines, each
stripped, and an empty or all-blank list yields a no-op batch rather than
an error. -/
theorem c6_fresh_worklist (env : Env) (contents : Int → Except String (List String))
    (lines : Int → List String) (s D T : Int) (hT : 1 ≤ T)
    (hread : ∀ t, contents t = Except.ok (lines t)) :
    (batchLoop env contents (s + D) T s).crashed? = none ∧
    (batchLoop env contents (s + D) T s).batches
      = (List.range (batchLoop env contents (s + D) T s).batches.length).map
          (fun (k : Nat) => process_all_images env ((s + (k : Int) * T).toNat)
            (lines (s + (k : Int) * T))) ∧
    (∀ ls : List String, parseWorkList ls
        = ls.filterMap (fun l => if strip l = "" then none else some (strip l))) ∧
    (∀ ts : Nat, process_all_images env ts [] = []) ∧
    (∀ (ts : Nat) (ls : List String), (∀ l ∈ ls, strip l = "") →
        process_all_images env ts ls = []) := by
  obtain ⟨ic, _, _, _, _, _, irm⟩ :=
    batchLoopAux_spec env contents lines (s + D) T hT hread
      (((s + D) - s).toNat + 1) s (by omega)
  unfold batchLoop
  refine ⟨ic, irm, parseWorkList_eq_filterMap, fun _ => rfl, ?_⟩
  intro ts ls h
  unfold process_all_images
  rw [parseWorkList_all_blank ls h]
  rfl

/-- C6 witness: concrete two-batch run over a fixed one-line source; blank
lines parse away and the empty list is a no-op batch. -/
theorem c6_fresh_worklist_witness :
    (batchLoop envC oneContents ((0 : Int) + 2) 1 0).crashed? = none ∧
    process_all_images envC 5 [] = [] ∧
    process_all_images envC 5 ["", "   "] = [] := by
  have h := c6_fresh_worklist envC oneContents oneLines 0 2 1 (by omega) (fun t => rfl)
  refine ⟨h.1, h.2.2.2.1 5, h.2.2.2.2 5 ["", "   "] ?_⟩
  intro l hl
  rcases List.mem_cons.mp hl with h1 | h1
  · subst h1
    decide
  · simp only [List.mem_singleton] at h1
    subst h1
    decide

/-- C7 (amended): on a well-formed response `process_image` writes exactly
two artifacts — the raw structured response and the extracted text — named
deterministically from the item's base identity (its `os.path.basename`)
and the seconds-granularity timestamp; the two names of one call never
coincide, and any two calls whose basenames differ or whose timestamps
differ produce disjoint names. (Two calls sharing basename and second
collide — see the counterexample — so distinctness of the (item, attempt)
pair alone is not enough, only distinctness of (basename, second) is.) -/
theorem c7_artifact_names (env : Env) (p1 p2 : String) (t1 t2 : Nat) :
    (basename p1 ≠ basename p2 ∨ t1 ≠ t2 →
      outputFileName env p1 t1 ≠ outputFileName env p2 t2 ∧
      responseFileName env p1 t1 ≠ responseFileName env p2 t2) ∧
    outputFileName env p1 t1 ≠ responseFileName env p2 t2 ∧
    (∀ (ts : Nat) (p : String), (process_image env ts p).ok = true →
      (process_image env ts p).files.map Prod.fst
        = [responseFileName env p ts, outputFileName env p ts]) := by
  refine ⟨?_, outputFileName_ne_responseFileName env p1 p2 t1 t2,
    process_image_files_of_ok env⟩
  intro hne
  constructor
  · intro h
    obtain ⟨hb, ht⟩ := outputFileName_inj h
    rcases hne with h1 | h1
    · exact h1 hb
    · exact h1 ht
  · intro h
    obtain ⟨hb, ht⟩ := responseFileName_inj h
    rcases hne with h1 | h1
    · exact h1 hb
    · exact h1 ht

/-- C7 witness: two attempts on the same item one second apart get
distinct artifact names, and the two artifacts of one call are distinct. -/
theorem c7_artifact_names_witness :
    outputFileName envC "x.png" 1 ≠ outputFileName envC "x.png" 2 ∧
    outputFileName envC "x.png" 1 ≠ responseFileName envC "x.png" 1 := by
  have h := c7_artifact_names envC "x.png" "x.png" 1 2
  have h2 := c7_artifact_names envC "x.png" "x.png" 1 1
  exact ⟨(h.1 (Or.inr (by omega))).1, h2.2.1⟩

/-- C7 counterexample: two distinct work items (different directories,
same base file name) processed in the same second collide on the very same
artifact file name, so distinctness of the (item, attempt) pair does not
by itself prevent collisions or overwrites. -/
theorem c7_counterexample :
    ("imgs/a/x.png" : String) ≠ "imgs/b/x.png" ∧
    outputFileName envC "imgs/a/x.png" 100 = outputFileName envC "imgs/b/x.png" 100 := by
  constructor
  · decide
  · decide

/-- C8 (amended): a missing required option aborts with exit status 2
before anything else runs (zero batches, zero deadline checks); an
unreadable work-list file aborts the process with exit status 1 before
any work item is dispatched — but only when the deadline allows a first
batch (`0 < D`), since the list is only opened inside a batch; it is not
a startup check (see the counterexample for duration ≤ 0). -/
theorem c8_config_errors (env : Env) (contents : Int → Except String (List String))
    (s D T : Int) (e wl arn : String) :
    (∀ il pa : Option String, il = none ∨ pa = none →
      runMain il pa env contents s D T = (2, ⟨none, [], 0, s⟩)) ∧
    (0 < D → contents s = Except.error e →
      runMain (some wl) (some arn) env contents s D T
        = (1, ⟨some e, [], 1, s⟩)) := by
  constructor
  · intro il pa h
    rcases h with h | h
    · subst h
      cases pa <;> rfl
    · subst h
      cases il <;> rfl
  · intro hD hc
    have hb : batchLoop env contents (s + D) T s = ⟨some e, [], 1, s⟩ := by
      unfold batchLoop
      exact batchLoopAux_succ_err env contents (s + D) T ((s + D - s).toNat) s e
        (by omega) hc
    simp [runMain, parseArgs, hb]

/-- C8 witness: missing required option exits 2; unreadable list with a
positive duration exits 1 with nothing dispatched. -/
theorem c8_config_errors_witness :
    runMain none (some "arn") envC badContents 0 5 1 = (2, ⟨none, [], 0, 0⟩) ∧
    runMain (some "list.txt") (some "arn") envC badContents 0 5 1
      = (1, ⟨some "No such file or directory: list.txt", [], 1, 0⟩) := by
  have h := c8_config_errors envC badContents 0 5 1
    "No such file or directory: list.txt" "list.txt" "arn"
  exact ⟨h.1 none (some "arn") (Or.inl rfl), h.2 (by omega) rfl⟩

/-- C8 counterexample: with an unreadable work-list file and duration 0
the process runs its single deadline check and exits with status 0 — the
configuration error is never detected, contradicting "every configuration
error ... is fatal at startup ... exits with a non-zero status". -/
theorem c8_counterexample :
    (runMain (some "list.txt") (some "arn") envC badContents 0 0 1).1 = 0 ∧
    badContents 0 = Except.error "No such file or directory: list.txt" :=
  ⟨rfl, rfl⟩

/-- C10: the format declared to the inference collaborator is "png" iff
the guessed MIME type contains the substring "png", and "jpeg" otherwise —
including for JPEG, GIF and WebP types and for unknown types, which
default to application/octet-stream. -/
theorem c10_image_format :
    (∀ (env : Env) (p data : String),
      ((buildRequest env p data).format = "png"
        ↔ strContains (mimeTypeOf env p) "png" = true) ∧
      ((buildRequest env p data).format = "jpeg"
        ↔ strContains (mimeTypeOf env p) "png" = false)) ∧
    imageFormat "image/jpeg" = "jpeg" ∧
    imageFormat "image/gif" = "jpeg" ∧
    imageFormat "image/webp" = "jpeg" ∧
    imageFormat "application/octet-stream" = "jpeg" ∧
    imageFormat "image/png" = "png" ∧
    imageFormat "image/x-png" = "png" ∧
    (∀ (env : Env) (p : String), env.guessMime p = none →
      mimeTypeOf env p = "application/octet-stream") := by
  refine ⟨?_, by decide, by decide, by decide, by decide, by decide, by decide, ?_⟩
  · intro env p data
    by_cases h : strContains (mimeTypeOf env p) "png" = true
    · constructor <;> simp [buildRequest, imageFormat, h]
    · constructor <;> simp [buildRequest, imageFormat, h]
  · intro env p h
    unfold mimeTypeOf
    rw [h]
    rfl

/-- C10 witness: a path with no recognizable MIME type is declared
"jpeg" via the application/octet-stream default. -/
theorem c10_image_format_witness :
    (buildRequest envC "shot.bin" "DATA").format = "jpeg" ∧
    mimeTypeOf envC "shot.bin" = "application/octet-stream" := by
  have h := c10_image_format
  refine ⟨?_, h.2.2.2.2.2.2.2 envC "shot.bin" rfl⟩
  exact ((h.1 envC "shot.bin" "DATA").2).mpr (by decide)

end NovaLite
